import Mathlib

/-!
Verification of the audio-bank container codec in `src/convert.py`
(EchoVR-Audio-Editor).

A container (one `.bnk` file) is modelled as a `List Nat` of byte values.
The embedded functions mirror, statement by statement:

* `parse_bnk`        — `AudioEngine.parse_bnk` (the chunk scan, lines 359–377);
* `bnk_index_list` / `bnk_index` — the index build in `AudioEngine.patch_batch`
  (lines 466–471, `struct.unpack('<III', ...)` on 12-byte records, dict
  assignment with last-wins overwrite);
* `extract_bank` / `extract_bank?` — the per-record slicing loop of
  `AudioEngine.extract_batch` (lines 400–411, `data[abs_start : abs_start +
  fsize]`, which in Python silently clamps to the buffer; the record decode
  `struct.unpack('<III', ...)` however raises an uncaught `struct.error` when
  a record runs past the buffer, aborting the loop — `extract_bank?`/
  `readRecord?` carry that error path);
* `inject` / `injectStep` — the injection step of `AudioEngine.patch_batch`
  (lines 479–511: size check, slice assignment, zero padding,
  `struct.pack_into('<I', data, didx_pos + 8, current_size)`);
* `shrink_to_fit`    — the auto-compression attempt loop (lines 488–499), with
  the external resampler (`WavManipulator.compress_wav`) and transcoder
  (`AudioEngine.run_conversion`) abstracted as function parameters;
* `available_wems` / `wem_matches` — the replacement-file matching
  (lines 446–449 and 474–476: `f.lower().endswith('.wem')`,
  `os.path.splitext(f)[0]`, lookup under the key `str(fid)`).

Python slice semantics are modelled exactly: reads clamp to the buffer
(`List.drop`/`List.take`), and slice *assignment* `data[a:b] = v` replaces the
clamped range `[min a len, min b len)` by `v`, growing the buffer when the
range is shorter than `v` (`setSlice`).  `struct.pack_into` is modelled by
`writeU32` via `List.set`; `List.set` past the end is a no-op where Python
would raise, so theorems about the write carry the in-bounds hypothesis under
which both agree.  The scan loop of `parse_bnk` is given explicit fuel
(`data.length + 1` always exceeds the iteration count, since every iteration
advances the cursor by at least 8).
-/

namespace EchoBank

/-- Little-endian unsigned 32-bit read at `pos`, as `struct.unpack('<I', ...)`
on `data[pos : pos+4]`.  Out-of-range bytes default to 0; every theorem that
relies on this read carries an in-bounds hypothesis. -/
def readU32 (data : List Nat) (pos : Nat) : Nat :=
  data.getD pos 0 + 256 * data.getD (pos + 1) 0 + 65536 * data.getD (pos + 2) 0 +
    16777216 * data.getD (pos + 3) 0

/-- Byte `i` of the little-endian u32 encoding of `n`. -/
def u32byte (n i : Nat) : Nat := n / 256 ^ i % 256

/-- Model of `struct.pack_into('<I', data, pos, n)`: overwrite the four bytes at
`pos .. pos+3` with the little-endian encoding of `n`. -/
def writeU32 (data : List Nat) (pos n : Nat) : List Nat :=
  ((((data.set pos (n % 256)).set (pos + 1) (n / 256 % 256)).set
    (pos + 2) (n / 65536 % 256)).set (pos + 3) (n / 16777216 % 256))

/-- Python bytearray slice assignment `data[a:b] = v` (for `a ≤ b`): the
clamped range is replaced by `v`.  When the clamped range is shorter than `v`
the buffer grows, exactly as in Python. -/
def setSlice (data : List Nat) (a b : Nat) (v : List Nat) : List Nat :=
  data.take a ++ v ++ data.drop b

/-- ASCII bytes of the chunk tag "DIDX". -/
def didxTag : List Nat := [68, 73, 68, 88]

/-- ASCII bytes of the chunk tag "DATA". -/
def dataTag : List Nat := [68, 65, 84, 65]

/-- The 4 tag bytes at `offset`.  `bytes.decode('ascii', errors='ignore')`
equals "DIDX" iff the four raw bytes are exactly the ASCII codes (a dropped
non-ASCII byte leaves fewer than 4 characters), so tag comparison is byte
equality. -/
def readTag (data : List Nat) (offset : Nat) : List Nat :=
  [data.getD offset 0, data.getD (offset + 1) 0, data.getD (offset + 2) 0,
    data.getD (offset + 3) 0]

/-- The scan loop of `parse_bnk`: `while offset < len(data) - 8`, read tag and
size, record `(offset+8, size)` for DIDX and `offset+8` for DATA (last
occurrence wins), advance by `8 + size`.  Fuel bounds the iteration count; the
callers pass `data.length + 1`, which always suffices since the cursor
advances by at least 8 per iteration. -/
def scanChunks : Nat → List Nat → Nat → Option (Nat × Nat) → Option Nat →
    Option (Nat × Nat) × Option Nat
  | 0, _, _, didx, dstart => (didx, dstart)
  | fuel + 1, data, offset, didx, dstart =>
    if offset < data.length - 8 then
      let size := readU32 data (offset + 4)
      if readTag data offset = didxTag then
        scanChunks fuel data (offset + 8 + size) (some (offset + 8, size)) dstart
      else if readTag data offset = dataTag then
        scanChunks fuel data (offset + 8 + size) didx (some (offset + 8))
      else
        scanChunks fuel data (offset + 8 + size) didx dstart
    else (didx, dstart)

/-- Model of `AudioEngine.parse_bnk`: returns `(didx_offset, didx_size,
data_payload_start)`, or `none` ("InvalidContainer") when either chunk was
never found. -/
def parse_bnk (data : List Nat) : Option (Nat × Nat × Nat) :=
  match scanChunks (data.length + 1) data 0 none none with
  | (some didx, some dstart) => some (didx.1, didx.2, dstart)
  | _ => none

/-- The sequence of header offsets visited by the scan loop of `parse_bnk`
(same fuel discipline as `scanChunks`). -/
def chunk_offsets : Nat → List Nat → Nat → List Nat
  | 0, _, _ => []
  | fuel + 1, data, offset =>
    if offset < data.length - 8 then
      offset :: chunk_offsets fuel data (offset + 8 + readU32 data (offset + 4))
    else []

/-- Last DIDX header among the visited offsets, as `(payload offset, size)`. -/
def lastDidx (data : List Nat) (acc : Option (Nat × Nat)) (offs : List Nat) :
    Option (Nat × Nat) :=
  offs.foldl
    (fun a o => if readTag data o = didxTag then some (o + 8, readU32 data (o + 4)) else a)
    acc

/-- Last DATA header among the visited offsets, as its payload offset. -/
def lastData (data : List Nat) (acc : Option Nat) (offs : List Nat) : Option Nat :=
  offs.foldl (fun a o => if readTag data o = dataTag then some (o + 8) else a) acc

/-- Modelled from the claim wording for the chunk scan (spec §4.1): identical
to `scanChunks` except that the loop runs while AT LEAST 8 bytes remain at the
cursor (`offset + 8 ≤ data.length`), where the code's loop requires strictly
more than 8 (`offset < len(data) - 8`).  Used only to compare the claim's
wording against the code. -/
def scanChunksClaim : Nat → List Nat → Nat → Option (Nat × Nat) → Option Nat →
    Option (Nat × Nat) × Option Nat
  | 0, _, _, didx, dstart => (didx, dstart)
  | fuel + 1, data, offset, didx, dstart =>
    if offset + 8 ≤ data.length then
      let size := readU32 data (offset + 4)
      if readTag data offset = didxTag then
        scanChunksClaim fuel data (offset + 8 + size) (some (offset + 8, size)) dstart
      else if readTag data offset = dataTag then
        scanChunksClaim fuel data (offset + 8 + size) didx (some (offset + 8))
      else
        scanChunksClaim fuel data (offset + 8 + size) didx dstart
    else (didx, dstart)

/-- Modelled from the claim wording: `parse_bnk` built on `scanChunksClaim`. -/
def parse_bnkClaim (data : List Nat) : Option (Nat × Nat × Nat) :=
  match scanChunksClaim (data.length + 1) data 0 none none with
  | (some didx, some dstart) => some (didx.1, didx.2, dstart)
  | _ => none

/-- One in-memory index record, as built by `patch_batch` lines 469–471:
`{'didx_pos': pos, 'file_offset': foff, 'max_size': fsize}`. -/
structure SlotInfo where
  didx_pos : Nat
  file_offset : Nat
  max_size : Nat
  deriving DecidableEq

/-- Decode the 12-byte record at `pos`:
`fid, foff, fsize = struct.unpack('<III', data[pos:pos+12])`. -/
def readRecord (data : List Nat) (pos : Nat) : Nat × SlotInfo :=
  (readU32 data pos,
    ⟨pos, readU32 data (pos + 4), readU32 data (pos + 8)⟩)

/-- All records of the DIDX payload in file order: `num_files = didx_size // 12`
records at `didx_offset + i*12`. -/
def bnk_index_list (data : List Nat) (didx_offset didx_size : Nat) :
    List (Nat × SlotInfo) :=
  (List.range (didx_size / 12)).map (fun i => readRecord data (didx_offset + 12 * i))

/-- Python dict assignment `m[k] = v`: overwrite in place when the key exists
(keeping insertion order), else append. -/
def dictInsert {κ ν : Type} [DecidableEq κ] (m : List (κ × ν)) (k : κ) (v : ν) :
    List (κ × ν) :=
  if m.any (fun p => p.1 == k) then m.map (fun p => if p.1 == k then (k, v) else p)
  else m ++ [(k, v)]

/-- Python dict lookup. -/
def dictGet {κ ν : Type} [DecidableEq κ] (m : List (κ × ν)) (k : κ) : Option ν :=
  (m.find? (fun p => p.1 == k)).map (fun p => p.2)

/-- The `bnk_index` dict of `patch_batch`: records inserted in file order,
duplicates overwriting.  Python keys the dict by `str(fid)`; since decimal
rendering is injective on `Nat`, keying by `fid` itself is equivalent. -/
def bnk_index (data : List Nat) (didx_offset didx_size : Nat) : List (Nat × SlotInfo) :=
  (bnk_index_list data didx_offset didx_size).foldl (fun m p => dictInsert m p.1 p.2) []

/-- Guarded record decode: `struct.unpack('<III', data[pos:pos+12])`
(`extract_batch` line 404, `patch_batch` line 470) slices exactly
`data[pos : pos+12]` and raises `struct.error` unless that slice holds the
full 12 bytes, i.e. unless `pos + 12 ≤ data.length`.  In `extract_batch` the
exception is uncaught and aborts the extraction loop. -/
def readRecord? (data : List Nat) (pos : Nat) : Option (Nat × SlotInfo) :=
  if pos + 12 ≤ data.length then some (readRecord data pos) else none

/-- The blob sliced out for one record by `extract_batch` line 411:
`data[abs_start : abs_start + fsize]` — Python slice reads clamp to the
buffer end, so a blob can come out shorter than `fsize`. -/
def extract_slice (data : List Nat) (dps foff fsize : Nat) : List Nat :=
  (data.drop (dps + foff)).take fsize

/-- The per-record extraction loop of `extract_batch` (lines 400–411): for
every one of `didx_size // 12` records, emit `(fid, blob)`.  This is the
loop's value in the regime where every record decode is in bounds (so that
`readU32`'s default-0 reads coincide with `struct.unpack`); `extract_bank?`
accounts for the abort outside that regime, and theorems about `extract_bank`
carry the corresponding hypothesis. -/
def extract_bank (data : List Nat) (didx_offset didx_size dps : Nat) :
    List (Nat × List Nat) :=
  (List.range (didx_size / 12)).map (fun i =>
    let pos := didx_offset + 12 * i
    (readU32 data pos,
      extract_slice data dps (readU32 data (pos + 4)) (readU32 data (pos + 8))))

/-- Outcome of the extraction loop of `extract_batch`: all
`didx_size // 12` pairs when every 12-byte record decode succeeds, `none`
when some record of the declared count runs past the buffer — there
`struct.unpack` raises an uncaught `struct.error` and the loop aborts (the
slot reads themselves clamp and never raise, so the record decode is the only
failure source in the loop). -/
def extract_bank? (data : List Nat) (didx_offset didx_size dps : Nat) :
    Option (List (Nat × List Nat)) :=
  if (List.range (didx_size / 12)).all
      (fun i => (readRecord? data (didx_offset + 12 * i)).isSome)
  then some (extract_bank data didx_offset didx_size dps)
  else none

/-- Result of one injection attempt.  `slotTooSmall excess` stands for the
"Too big" skip (spec: `SlotTooSmall(by = len - capacity)`). -/
inductive InjectResult where
  | ok (newData : List Nat)
  | slotTooSmall (excess : Nat)
  deriving DecidableEq

/-- Lines 508–511 of `patch_batch`, already past the size check:
`data[abs_start : abs_start + n] = new_content`; zero-fill
`data[abs_start + n : abs_start + max_size]` when padding > 0; then
`struct.pack_into('<I', data, didx_pos + 8, n)`. -/
def injectRaw (data : List Nat) (abs_start max_size didx_pos : Nat)
    (repl : List Nat) : List Nat :=
  let n := repl.length
  let d1 := setSlice data abs_start (abs_start + n) repl
  let d2 :=
    if max_size - n > 0 then
      setSlice d1 (abs_start + n) (abs_start + max_size) (List.replicate (max_size - n) 0)
    else d1
  writeU32 d2 (didx_pos + 8) n

/-- One injection attempt for a matched asset (shrink disabled/unavailable):
skip with `slotTooSmall` when the replacement exceeds the captured capacity
(line 481 / line 507), otherwise perform the three writes. -/
def inject (dps : Nat) (data : List Nat) (s : SlotInfo) (repl : List Nat) :
    InjectResult :=
  if repl.length > s.max_size then .slotTooSmall (repl.length - s.max_size)
  else .ok (injectRaw data (dps + s.file_offset) s.max_size s.didx_pos repl)

/-- The container state after one loop iteration: unchanged on a skip
(`continue`), else the mutated buffer. -/
def injectStep (dps : Nat) (data : List Nat) (s : SlotInfo) (repl : List Nat) :
    List Nat :=
  match inject dps data s repl with
  | .ok d => d
  | .slotTooSmall _ => data

/-- A sequence of injection attempts over one bank (the
`for wem_id, wem_path in available_wems.items()` loop). -/
def patchFold (dps : Nat) (data : List Nat) (injs : List (SlotInfo × List Nat)) :
    List Nat :=
  injs.foldl (fun d p => injectStep dps d p.1 p.2) data

/-- The fixed attempt list of `patch_batch` line 489. -/
def shrink_attempts : List (Nat × Nat) :=
  [(44100, 1), (32000, 2), (32000, 1), (24000, 1), (22050, 1)]

/-- The auto-compression loop of `patch_batch` lines 488–499, with the
external resampler (`compress_wav`) and transcoder (`run_conversion`)
abstracted as `Option`-valued function parameters (`none` = the external step
failed).  Returns the first resulting blob whose size fits, `none` when every
attempt is exhausted ("Failed to shrink enough" / spec `CannotShrink`). -/
def shrink_to_fit {α : Type} (resample : Nat → Nat → Option α)
    (transcode : α → Option (List Nat)) (cap : Nat) :
    List (Nat × Nat) → Option (List Nat)
  | [] => none
  | (sr, ch) :: rest =>
    match resample sr ch with
    | none => shrink_to_fit resample transcode cap rest
    | some w =>
      match transcode w with
      | none => shrink_to_fit resample transcode cap rest
      | some blob =>
        if blob.length ≤ cap then some blob else shrink_to_fit resample transcode cap rest

/-- Outcome of a single shrink attempt: the resulting blob if both external
steps succeed and the blob fits, else `none`. -/
def attempt_fit {α : Type} (resample : Nat → Nat → Option α)
    (transcode : α → Option (List Nat)) (cap : Nat) (p : Nat × Nat) :
    Option (List Nat) :=
  match resample p.1 p.2 with
  | none => none
  | some w =>
    match transcode w with
    | none => none
    | some blob => if blob.length ≤ cap then some blob else none

/-- Model of `f.lower().endswith('.wem')` (line 449), on filenames as character
lists. -/
def endsWithWem (f : List Char) : Bool :=
  (f.map Char.toLower).reverse.take 4 == ['m', 'e', 'w', '.']

/-- Index of the last '.' in a filename (`p.rfind('.')`). -/
def lastDotIdx (f : List Char) : Option Nat :=
  match f.reverse.findIdx? (fun c => c == '.') with
  | none => none
  | some j => some (f.length - 1 - j)

/-- Model of `os.path.splitext(f)[0]` for a bare filename: split at the last dot,
except that a name whose characters before that dot are all dots (a leading
dot file like `".wem"`) has no extension. -/
def splitext_stem (f : List Char) : List Char :=
  match lastDotIdx f with
  | none => f
  | some d => if (f.take d).any (fun c => c != '.') then f.take d else f

/-- A replacement file matches the record `fid` exactly when it passes the
`.wem` filter of line 449 and its stem equals `str(fid)` (the key compared on
line 475). -/
def wem_matches (f : List Char) (fid : Nat) : Bool :=
  endsWithWem f && (splitext_stem f == (toString fid).toList)

/-- The `available_wems` dict of lines 446–449: fold the directory listing,
keeping `stem ↦ file` for files passing the `.wem` filter (later files
overwrite earlier ones with the same stem, as dict assignment does).  The
stored value is the file itself (Python stores its path, determined by the
name). -/
def available_wems (files : List (List Char)) : List (List Char × List Char) :=
  files.foldl (fun m f => if endsWithWem f then dictInsert m (splitext_stem f) f else m) []

/-- A concrete stand-in resampler (always succeeds, returning the requested
configuration), used to instantiate `shrink_to_fit` on a closed input. -/
def fakeResample (sr ch : Nat) : Option (Nat × Nat) := some (sr, ch)

/-- A concrete stand-in transcoder: fails on `(32000, 2)`, produces a 3-byte
blob for `(32000, 1)` and a 10-byte blob otherwise. -/
def fakeTranscode (w : Nat × Nat) : Option (List Nat) :=
  if w = (32000, 2) then none
  else if w = (32000, 1) then some [7, 7, 7]
  else some [9, 9, 9, 9, 9, 9, 9, 9, 9, 9]

/-- Scenario A container: DIDX with one record `(id 100, offset 0, used 4)`
and DATA payload "AAAA". -/
def exContainer : List Nat :=
  [68, 73, 68, 88, 12, 0, 0, 0,
   100, 0, 0, 0, 0, 0, 0, 0, 4, 0, 0, 0,
   68, 65, 84, 65, 4, 0, 0, 0,
   65, 65, 65, 65]

/-- Like `exContainer`, but the record declares `used_size 6` while the DATA
payload holds only 4 bytes: the slot `[28, 34)` overruns the 32-byte
container. -/
def exOverrun : List Nat :=
  [68, 73, 68, 88, 12, 0, 0, 0,
   100, 0, 0, 0, 0, 0, 0, 0, 6, 0, 0, 0,
   68, 65, 84, 65, 4, 0, 0, 0,
   65, 65, 65, 65]

/-- Like `exContainer`, but the record declares `relative_offset 1000`: the
slot starts far past the end of the 32-byte container. -/
def exFarOffset : List Nat :=
  [68, 73, 68, 88, 12, 0, 0, 0,
   100, 0, 0, 0, 232, 3, 0, 0, 4, 0, 0, 0,
   68, 65, 84, 65, 4, 0, 0, 0,
   65, 65, 65, 65]

/-- A 16-byte container: a DIDX header with size 0 followed by a DATA header
with size 0.  The DATA header occupies exactly the last 8 bytes. -/
def exTrailingHeader : List Nat :=
  [68, 73, 68, 88, 0, 0, 0, 0, 68, 65, 84, 65, 0, 0, 0, 0]

/-- Two records `(100, 0, 6)` and `(200, 0, 2)` over a 4-byte DATA payload:
the first slot `[40, 46)` overruns the 44-byte container, the second fits. -/
def exTwoRecords : List Nat :=
  [68, 73, 68, 88, 24, 0, 0, 0,
   100, 0, 0, 0, 0, 0, 0, 0, 6, 0, 0, 0,
   200, 0, 0, 0, 0, 0, 0, 0, 2, 0, 0, 0,
   68, 65, 84, 65, 4, 0, 0, 0,
   65, 65, 65, 65]

/-- A bare 25-byte DIDX payload: records `(7, 0, 4)` and `(7, 4, 2)` plus one
trailing byte (Scenario D's partial record, and a duplicated `asset_id`). -/
def exDupDidx : List Nat :=
  [7, 0, 0, 0, 0, 0, 0, 0, 4, 0, 0, 0,
   7, 0, 0, 0, 4, 0, 0, 0, 2, 0, 0, 0,
   99]

/-! Byte-buffer lemmas: the effect of `setSlice` and `writeU32` on length and
on individual bytes, leading to a single characterization of `injectRaw`. -/

theorem getElem?_set' (l : List Nat) (i j a : Nat) :
    (l.set i a)[j]? = if i = j ∧ i < l.length then some a else l[j]? := by
  rcases eq_or_ne i j with rfl | h
  · by_cases hl : i < l.length
    · simp [List.getElem?_set_self, hl]
    · rw [List.set_eq_of_length_le (by omega)]; simp [hl]
  · simp [List.getElem?_set_ne h, h]

theorem setSlice_over_length (data : List Nat) (a : Nat) (v : List Nat)
    (hb : a + v.length ≤ data.length) :
    (setSlice data a (a + v.length) v).length = data.length := by
  simp only [setSlice, List.length_append, List.length_take, List.length_drop]
  omega

theorem setSlice_over_getElem? (data : List Nat) (a : Nat) (v : List Nat) (k : Nat)
    (hb : a + v.length ≤ data.length) :
    (setSlice data a (a + v.length) v)[k]? =
      if a ≤ k ∧ k < a + v.length then v[k - a]? else data[k]? := by
  have ht : (data.take a).length = a := by simp; omega
  simp only [setSlice, List.getElem?_append, List.length_append, ht,
    List.getElem?_take, List.getElem?_drop]
  split_ifs <;> ((try (exfalso; omega)); (try rfl); (try (congr 1; omega)))

theorem writeU32_length (data : List Nat) (pos n : Nat) :
    (writeU32 data pos n).length = data.length := by
  simp [writeU32]

theorem writeU32_getElem? (data : List Nat) (pos n k : Nat) (h : pos + 4 ≤ data.length) :
    (writeU32 data pos n)[k]? =
      if pos ≤ k ∧ k < pos + 4 then some (u32byte n (k - pos)) else data[k]? := by
  have h3 : pos + 3 < data.length := by omega
  simp only [writeU32, getElem?_set', List.length_set]
  by_cases c3 : pos + 3 = k
  · rw [if_pos ⟨c3, h3⟩, if_pos (by omega)]
    have hs : k - pos = 3 := by omega
    rw [hs]; norm_num [u32byte]
  · rw [if_neg (by omega)]
    by_cases c2 : pos + 2 = k
    · rw [if_pos ⟨c2, by omega⟩, if_pos (by omega)]
      have hs : k - pos = 2 := by omega
      rw [hs]; norm_num [u32byte]
    · rw [if_neg (by omega)]
      by_cases c1 : pos + 1 = k
      · rw [if_pos ⟨c1, by omega⟩, if_pos (by omega)]
        have hs : k - pos = 1 := by omega
        rw [hs]; norm_num [u32byte]
      · rw [if_neg (by omega)]
        by_cases c0 : pos = k
        · rw [if_pos ⟨c0, by omega⟩, if_pos (by omega)]
          have hs : k - pos = 0 := by omega
          rw [hs]; norm_num [u32byte]
        · rw [if_neg (by omega), if_neg (by omega)]

theorem setSlice_length (data : List Nat) (a b : Nat) (v : List Nat) :
    (setSlice data a b v).length = min a data.length + v.length + (data.length - b) := by
  simp only [setSlice, List.length_append, List.length_take, List.length_drop]

theorem injectRaw_length (data : List Nat) (A c P : Nat) (repl : List Nat)
    (hn : repl.length ≤ c) (hslot : A + c ≤ data.length) :
    (injectRaw data A c P repl).length = data.length := by
  simp only [injectRaw, writeU32_length]
  by_cases hp : c - repl.length > 0
  · rw [if_pos hp]
    simp only [setSlice_length, List.length_replicate]
    omega
  · rw [if_neg hp]
    simp only [setSlice_length]
    omega

theorem injectRaw_getD (data : List Nat) (A c P : Nat) (repl : List Nat) (k : Nat)
    (hn : repl.length ≤ c) (hslot : A + c ≤ data.length) (hrec : P + 12 ≤ data.length) :
    (injectRaw data A c P repl).getD k 0 =
      if P + 8 ≤ k ∧ k < P + 12 then u32byte repl.length (k - (P + 8))
      else if A ≤ k ∧ k < A + repl.length then repl.getD (k - A) 0
      else if A ≤ k ∧ k < A + c then 0
      else data.getD k 0 := by
  have h1l : (setSlice data A (A + repl.length) repl).length = data.length :=
    setSlice_over_length data A repl (by omega)
  by_cases hp : c - repl.length > 0
  · have e : A + c = (A + repl.length) + (List.replicate (c - repl.length) (0:Nat)).length := by
      simp only [List.length_replicate]; omega
    have h2l : (setSlice (setSlice data A (A + repl.length) repl) (A + repl.length) (A + c)
        (List.replicate (c - repl.length) 0)).length = data.length := by
      rw [e, setSlice_over_length _ _ _ (by simp only [List.length_replicate, h1l]; omega)]
      exact h1l
    simp only [injectRaw, if_pos hp, List.getD_eq_getElem?_getD]
    rw [writeU32_getElem? _ _ _ _ (by rw [h2l]; omega)]
    rw [e, setSlice_over_getElem? _ _ _ _ (by simp only [List.length_replicate, h1l]; omega)]
    rw [setSlice_over_getElem? _ _ _ _ (by omega)]
    simp only [List.length_replicate, List.getElem?_replicate]
    split_ifs <;> (try (exfalso; omega)) <;>
      simp only [Option.getD_some, Option.getD_none, List.getD_eq_getElem?_getD]
  · simp only [injectRaw, if_neg hp, List.getD_eq_getElem?_getD]
    rw [writeU32_getElem? _ _ _ _ (by rw [h1l]; omega)]
    rw [setSlice_over_getElem? _ _ _ _ (by omega)]
    split_ifs <;> (try (exfalso; omega)) <;>
      simp only [Option.getD_some, Option.getD_none, List.getD_eq_getElem?_getD]

theorem list_ext_getD (l l' : List Nat) (hl : l.length = l'.length)
    (h : ∀ k, l.getD k 0 = l'.getD k 0) : l = l' := by
  apply List.ext_getElem hl
  intro i hi hi'
  have := h i
  rwa [List.getD_eq_getElem?_getD, List.getD_eq_getElem?_getD,
    List.getElem?_eq_getElem hi, List.getElem?_eq_getElem hi',
    Option.getD_some, Option.getD_some] at this

theorem injectStep_of_fits (dps : Nat) (data : List Nat) (s : SlotInfo) (repl : List Nat)
    (h : repl.length ≤ s.max_size) :
    injectStep dps data s repl =
      injectRaw data (dps + s.file_offset) s.max_size s.didx_pos repl := by
  unfold injectStep inject
  rw [if_neg (by omega)]

theorem injectStep_of_big (dps : Nat) (data : List Nat) (s : SlotInfo) (repl : List Nat)
    (h : s.max_size < repl.length) :
    injectStep dps data s repl = data := by
  unfold injectStep inject
  rw [if_pos (by omega)]

theorem injectStep_length (dps : Nat) (data : List Nat) (s : SlotInfo) (repl : List Nat)
    (hb : repl.length ≤ s.max_size → dps + s.file_offset + s.max_size ≤ data.length) :
    (injectStep dps data s repl).length = data.length := by
  by_cases hc : repl.length ≤ s.max_size
  · rw [injectStep_of_fits _ _ _ _ hc]
    exact injectRaw_length _ _ _ _ _ hc (hb hc)
  · rw [injectStep_of_big _ _ _ _ (by omega)]

theorem injectStep_getD_outside (dps : Nat) (data : List Nat) (s : SlotInfo)
    (repl : List Nat) (k : Nat)
    (hslot : dps + s.file_offset + s.max_size ≤ data.length)
    (hrec : s.didx_pos + 12 ≤ data.length)
    (hk1 : ¬(dps + s.file_offset ≤ k ∧ k < dps + s.file_offset + s.max_size))
    (hk2 : ¬(s.didx_pos + 8 ≤ k ∧ k < s.didx_pos + 12)) :
    (injectStep dps data s repl).getD k 0 = data.getD k 0 := by
  by_cases hc : repl.length ≤ s.max_size
  · rw [injectStep_of_fits _ _ _ _ hc, injectRaw_getD _ _ _ _ _ _ hc hslot hrec]
    rw [if_neg hk2, if_neg (by omega), if_neg hk1]
  · rw [injectStep_of_big _ _ _ _ (by omega)]

/-- C8 (amended): provided the slot and its index record lie within the
container, injection is idempotent per asset for fixed replacement bytes —
performing the overwrite, zero-fill and `used_size` rewrite twice yields the
same container state as once (and a skipped oversized replacement changes
nothing either time).  The in-bounds proviso is forced by
`inject_idempotent_counterexample`: a slot starting past the buffer end makes
each injection append afresh. -/
theorem injectStep_idem (dps : Nat) (data : List Nat) (s : SlotInfo) (repl : List Nat)
    (hslot : dps + s.file_offset + s.max_size ≤ data.length)
    (hrec : s.didx_pos + 12 ≤ data.length) :
    injectStep dps (injectStep dps data s repl) s repl = injectStep dps data s repl := by
  by_cases hc : repl.length ≤ s.max_size
  · rw [injectStep_of_fits _ _ _ _ hc, injectStep_of_fits _ _ _ _ hc]
    have h1l := injectRaw_length data (dps + s.file_offset) s.max_size s.didx_pos repl hc hslot
    apply list_ext_getD
    · rw [injectRaw_length _ _ _ _ _ hc (by rw [h1l]; exact hslot), h1l]
    · intro k
      have hf := injectRaw_getD data (dps + s.file_offset) s.max_size s.didx_pos repl k
        hc hslot hrec
      have hf2 := injectRaw_getD
        (injectRaw data (dps + s.file_offset) s.max_size s.didx_pos repl)
        (dps + s.file_offset) s.max_size s.didx_pos repl k
        hc (by rw [h1l]; exact hslot) (by rw [h1l]; exact hrec)
      rw [hf2, hf]
      split_ifs <;> rfl
  · rw [injectStep_of_big _ _ _ _ (by omega), injectStep_of_big _ _ _ _ (by omega)]

theorem injectRaw_readU32 (data : List Nat) (A c P : Nat) (repl : List Nat)
    (hn : repl.length ≤ c) (hslot : A + c ≤ data.length) (hrec : P + 12 ≤ data.length)
    (hlt : repl.length < 4294967296) :
    readU32 (injectRaw data A c P repl) (P + 8) = repl.length := by
  have g0 := injectRaw_getD data A c P repl (P + 8) hn hslot hrec
  have g1 := injectRaw_getD data A c P repl (P + 8 + 1) hn hslot hrec
  have g2 := injectRaw_getD data A c P repl (P + 8 + 2) hn hslot hrec
  have g3 := injectRaw_getD data A c P repl (P + 8 + 3) hn hslot hrec
  rw [if_pos (by omega)] at g0 g1 g2 g3
  unfold readU32
  rw [g0, g1, g2, g3]
  have e0 : P + 8 - (P + 8) = 0 := by omega
  have e1 : P + 8 + 1 - (P + 8) = 1 := by omega
  have e2 : P + 8 + 2 - (P + 8) = 2 := by omega
  have e3 : P + 8 + 3 - (P + 8) = 3 := by omega
  rw [e0, e1, e2, e3]
  norm_num [u32byte]
  omega

theorem u32_digits (b0 b1 b2 b3 c : Nat) (h0 : b0 < 256) (h1 : b1 < 256) (h2 : b2 < 256)
    (h3 : b3 < 256) (hc : b0 + 256 * b1 + 65536 * b2 + 16777216 * b3 = c) :
    b0 = u32byte c 0 ∧ b1 = u32byte c 1 ∧ b2 = u32byte c 2 ∧ b3 = u32byte c 3 := by
  simp only [u32byte, pow_zero, pow_one, Nat.div_one,
    show (256 : Nat) ^ 2 = 65536 from by norm_num,
    show (256 : Nat) ^ 3 = 16777216 from by norm_num]
  omega

theorem take_drop_getD (d : List Nat) (A n k : Nat) (h : k < n) :
    ((d.drop A).take n).getD k 0 = d.getD (A + k) 0 := by
  simp only [List.getD_eq_getElem?_getD, List.getElem?_take, if_pos h, List.getElem?_drop]

theorem extract_slice_length (data : List Nat) (dps foff fsize : Nat)
    (hb : dps + foff + fsize ≤ data.length) :
    (extract_slice data dps foff fsize).length = fsize := by
  simp only [extract_slice, List.length_take, List.length_drop]
  omega

theorem extract_slice_getD (data : List Nat) (dps foff fsize k : Nat)
    (h : k < fsize) :
    (extract_slice data dps foff fsize).getD k 0 = data.getD (dps + foff + k) 0 := by
  simp only [extract_slice, List.getD_eq_getElem?_getD, List.getElem?_take, if_pos h,
    List.getElem?_drop]

theorem bnk_index_list_length (data : List Nat) (off size : Nat) :
    (bnk_index_list data off size).length = size / 12 := by
  simp [bnk_index_list]

theorem bnk_index_list_mem (data : List Nat) (off size fid : Nat) (s : SlotInfo)
    (h : (fid, s) ∈ bnk_index_list data off size) :
    s.max_size = readU32 data (s.didx_pos + 8) := by
  simp only [bnk_index_list, List.mem_map, List.mem_range] at h
  obtain ⟨i, -, hr⟩ := h
  unfold readRecord at hr
  injection hr with h1 h2
  subst h2
  rfl

theorem injectStep_roundtrip (dps : Nat) (data : List Nat) (s : SlotInfo)
    (hbytes : ∀ b ∈ data, b < 256)
    (hslot : dps + s.file_offset + s.max_size ≤ data.length)
    (hrec : s.didx_pos + 12 ≤ data.length)
    (hcap : readU32 data (s.didx_pos + 8) = s.max_size) :
    injectStep dps data s (extract_slice data dps s.file_offset s.max_size) = data := by
  have hbyte : ∀ i, i < data.length → data.getD i 0 < 256 := by
    intro i hi
    rw [List.getD_eq_getElem?_getD, List.getElem?_eq_getElem hi, Option.getD_some]
    exact hbytes _ (List.getElem_mem hi)
  have hlen : (extract_slice data dps s.file_offset s.max_size).length = s.max_size :=
    extract_slice_length data dps s.file_offset s.max_size hslot
  rw [injectStep_of_fits _ _ _ _ (by rw [hlen])]
  apply list_ext_getD
  · exact injectRaw_length _ _ _ _ _ (by rw [hlen]) hslot
  · intro k
    rw [injectRaw_getD _ _ _ _ _ _ (by rw [hlen]) hslot hrec, hlen]
    split_ifs with h1 h2
    · have b0 := hbyte (s.didx_pos + 8) (by omega)
      have b1 := hbyte (s.didx_pos + 8 + 1) (by omega)
      have b2 := hbyte (s.didx_pos + 8 + 2) (by omega)
      have b3 := hbyte (s.didx_pos + 8 + 3) (by omega)
      unfold readU32 at hcap
      obtain ⟨d0, d1, d2, d3⟩ := u32_digits _ _ _ _ _ b0 b1 b2 b3 hcap
      have hk : k = s.didx_pos + 8 ∨ k = s.didx_pos + 8 + 1 ∨ k = s.didx_pos + 8 + 2 ∨
          k = s.didx_pos + 8 + 3 := by omega
      rcases hk with rfl | rfl | rfl | rfl
      · rw [show s.didx_pos + 8 - (s.didx_pos + 8) = 0 from by omega]; exact d0.symm
      · rw [show s.didx_pos + 8 + 1 - (s.didx_pos + 8) = 1 from by omega]; exact d1.symm
      · rw [show s.didx_pos + 8 + 2 - (s.didx_pos + 8) = 2 from by omega]; exact d2.symm
      · rw [show s.didx_pos + 8 + 3 - (s.didx_pos + 8) = 3 from by omega]; exact d3.symm
    · rw [extract_slice_getD data dps s.file_offset s.max_size _ (by omega)]
      congr 1
      omega
    · rfl

theorem patchFold_fixed (dps : Nat) (data : List Nat) :
    ∀ injs : List (SlotInfo × List Nat),
      (∀ p ∈ injs, injectStep dps data p.1 p.2 = data) →
      patchFold dps data injs = data
  | [], _ => rfl
  | p :: rest, h => by
    show patchFold dps (injectStep dps data p.1 p.2) rest = data
    rw [h p (by simp)]
    exact patchFold_fixed dps data rest (fun q hq => h q (by simp [hq]))

/-! Claim theorems. -/

/-- C1 (amended): provided every successfully injected slot lies within the
container — `payload_offset + capacity ≤ length` and `record_position + 12 ≤
length` — any sequence of inject calls preserves the container's byte length,
and every byte outside the patched slots' ranges
`[payload_offset, payload_offset + capacity)` and the 4-byte `used_size`
fields `[record_position + 8, record_position + 12)` is unchanged.  The
in-bounds proviso is forced by `patch_length_counterexample`: on an index
entry whose slot overruns the buffer, Python's slice assignment grows the
bytearray. -/
theorem patch_preserves_frame (dps : Nat) (injs : List (SlotInfo × List Nat)) :
    ∀ data : List Nat,
      (∀ p ∈ injs, p.2.length ≤ p.1.max_size →
        dps + p.1.file_offset + p.1.max_size ≤ data.length ∧
          p.1.didx_pos + 12 ≤ data.length) →
      (patchFold dps data injs).length = data.length ∧
      ∀ k : Nat,
        (∀ p ∈ injs, p.2.length ≤ p.1.max_size →
          ¬(dps + p.1.file_offset ≤ k ∧ k < dps + p.1.file_offset + p.1.max_size) ∧
          ¬(p.1.didx_pos + 8 ≤ k ∧ k < p.1.didx_pos + 12)) →
        (patchFold dps data injs).getD k 0 = data.getD k 0 := by
  induction injs with
  | nil => exact fun data _ => ⟨rfl, fun k _ => rfl⟩
  | cons p rest ih =>
    intro data hb
    have hstep : (injectStep dps data p.1 p.2).length = data.length :=
      injectStep_length dps data p.1 p.2 (fun h => (hb p (by simp) h).1)
    have hrest := ih (injectStep dps data p.1 p.2) (by
      intro q hq hfit
      rw [hstep]
      exact hb q (by simp [hq]) hfit)
    constructor
    · show (patchFold dps (injectStep dps data p.1 p.2) rest).length = data.length
      rw [hrest.1, hstep]
    · intro k hk
      have h2 := hrest.2 k (fun q hq hfit => hk q (by simp [hq]) hfit)
      show (patchFold dps (injectStep dps data p.1 p.2) rest).getD k 0 = data.getD k 0
      rw [h2]
      by_cases hfit : p.2.length ≤ p.1.max_size
      · obtain ⟨hk1, hk2⟩ := hk p (by simp) hfit
        exact injectStep_getD_outside dps data p.1 p.2 k (hb p (by simp) hfit).1
          (hb p (by simp) hfit).2 hk1 hk2
      · rw [injectStep_of_big _ _ _ _ (by omega)]

/-- C1 counterexample: `exOverrun` parses, its single index record declares a
6-byte slot over a 4-byte DATA payload, and injecting a 6-byte replacement
(which passes the `len > capacity` check, `6 ≤ 6`) grows the 32-byte container
to 34 bytes — the claim's unconditional length preservation is false. -/
theorem patch_length_counterexample :
    parse_bnk exOverrun = some (8, 12, 28) ∧
    bnk_index_list exOverrun 8 12 = [(100, ⟨8, 0, 6⟩)] ∧
    exOverrun.length = 32 ∧
    (patchFold 28 exOverrun [(⟨8, 0, 6⟩, [66, 66, 66, 66, 66, 66])]).length = 34 := by
  decide

/-- Witness for `patch_preserves_frame` at Scenario A: injecting `[66, 66]`
into the in-bounds 4-byte slot preserves the length, and byte 0 (outside the
patched ranges) is unchanged. -/
theorem patch_preserves_frame_witness :
    (patchFold 28 exContainer [(⟨8, 0, 4⟩, [66, 66])]).length = exContainer.length ∧
    (patchFold 28 exContainer [(⟨8, 0, 4⟩, [66, 66])]).getD 0 0 = exContainer.getD 0 0 := by
  have h := patch_preserves_frame 28 [(⟨8, 0, 4⟩, [66, 66])] exContainer (by decide)
  exact ⟨h.1, h.2 0 (by decide)⟩

/-- C2 (amended): provided the slot and its index record lie within the
container and do not overlap each other, injecting `repl` with
`repl.length ≤ capacity` leaves `repl` at
`[payload_offset, payload_offset + repl.length)`, zeros on the rest of the
slot, and `repl.length` in the little-endian u32 `used_size` field at
`record_position + 8`.  The in-bounds proviso is forced by
`inject_writes_slot_counterexample`: when `payload_offset` lies past the end
of the buffer, Python appends the replacement at the end instead. -/
theorem inject_writes_slot (dps : Nat) (data : List Nat) (s : SlotInfo) (repl : List Nat)
    (hn : repl.length ≤ s.max_size)
    (hcap : s.max_size < 4294967296)
    (hslot : dps + s.file_offset + s.max_size ≤ data.length)
    (hrec : s.didx_pos + 12 ≤ data.length)
    (hdisj : s.didx_pos + 12 ≤ dps + s.file_offset ∨
      dps + s.file_offset + s.max_size ≤ s.didx_pos + 8) :
    ((injectStep dps data s repl).drop (dps + s.file_offset)).take repl.length = repl ∧
    (∀ k, repl.length ≤ k → k < s.max_size →
      (injectStep dps data s repl).getD (dps + s.file_offset + k) 0 = 0) ∧
    readU32 (injectStep dps data s repl) (s.didx_pos + 8) = repl.length := by
  rw [injectStep_of_fits _ _ _ _ hn]
  have hL := injectRaw_length data (dps + s.file_offset) s.max_size s.didx_pos repl hn hslot
  refine ⟨?_, ?_, ?_⟩
  · apply list_ext_getD
    · simp only [List.length_take, List.length_drop, hL]; omega
    · intro k
      by_cases hk : k < repl.length
      · rw [take_drop_getD _ _ _ _ hk,
          injectRaw_getD _ _ _ _ _ _ hn hslot hrec,
          if_neg (by omega), if_pos (by omega)]
        congr 1
        omega
      · rw [List.getD_eq_default _ _ (by simp only [List.length_take, List.length_drop]; omega),
          List.getD_eq_default _ _ (by omega)]
  · intro k h1 h2
    rw [injectRaw_getD _ _ _ _ _ _ hn hslot hrec,
      if_neg (by omega), if_neg (by omega), if_pos (by omega)]
  · exact injectRaw_readU32 data _ _ _ repl hn hslot hrec (by omega)

/-- C2 counterexample: in `exFarOffset` the indexed slot `(id 100, offset
1000, capacity 4)` starts past the end of the 32-byte container; injecting
`[66, 66]` (which satisfies `len ≤ capacity`) appends the bytes at the end of
the buffer, so the slice at `payload_offset` does not hold the replacement —
the claim, which has no in-bounds proviso, is false. -/
theorem inject_writes_slot_counterexample :
    parse_bnk exFarOffset = some (8, 12, 28) ∧
    bnk_index_list exFarOffset 8 12 = [(100, ⟨8, 1000, 4⟩)] ∧
    ((injectStep 28 exFarOffset ⟨8, 1000, 4⟩ [66, 66]).drop (28 + 1000)).take 2 ≠
      [66, 66] := by
  decide

/-- Witness for `inject_writes_slot` at Scenario B: injecting `[66, 66]` into
the 4-byte slot of `exContainer` leaves payload `BB\x00\x00` and `used_size`
2. -/
theorem inject_writes_slot_witness :
    ((injectStep 28 exContainer ⟨8, 0, 4⟩ [66, 66]).drop 28).take 2 = [66, 66] ∧
    (injectStep 28 exContainer ⟨8, 0, 4⟩ [66, 66]).getD 30 0 = 0 ∧
    readU32 (injectStep 28 exContainer ⟨8, 0, 4⟩ [66, 66]) 16 = 2 := by
  have h := inject_writes_slot 28 exContainer ⟨8, 0, 4⟩ [66, 66] (by decide) (by decide)
    (by decide) (by decide) (Or.inl (by decide))
  exact ⟨h.1, h.2.1 2 (by decide) (by decide), h.2.2⟩

/-- C3: the injection attempt fails with `slotTooSmall` exactly when the
replacement exceeds the capacity captured at index-build time, the reported
excess is `len - capacity`, and on that failure the container is left
completely untouched (the loop `continue`s without any write). -/
theorem inject_fails_iff_too_big (dps : Nat) (data : List Nat) (s : SlotInfo)
    (repl : List Nat) :
    ((∃ b, inject dps data s repl = InjectResult.slotTooSmall b) ↔
      s.max_size < repl.length) ∧
    (s.max_size < repl.length →
      inject dps data s repl = InjectResult.slotTooSmall (repl.length - s.max_size) ∧
      injectStep dps data s repl = data) := by
  constructor
  · constructor
    · rintro ⟨b, hb⟩
      by_cases h : s.max_size < repl.length
      · exact h
      · exfalso
        unfold inject at hb
        rw [if_neg (by omega)] at hb
        exact InjectResult.noConfusion hb
    · intro h
      exact ⟨repl.length - s.max_size, by unfold inject; rw [if_pos (by omega)]⟩
  · intro h
    exact ⟨by unfold inject; rw [if_pos (by omega)],
      injectStep_of_big dps data s repl h⟩

/-- Witness for `inject_fails_iff_too_big` at Scenario C: a 5-byte replacement
against the 4-byte slot of `exContainer` fails with `slotTooSmall 1` and the
container is untouched. -/
theorem inject_fails_iff_too_big_witness :
    inject 28 exContainer ⟨8, 0, 4⟩ [67, 67, 67, 67, 67] =
      InjectResult.slotTooSmall 1 ∧
    injectStep 28 exContainer ⟨8, 0, 4⟩ [67, 67, 67, 67, 67] = exContainer :=
  (inject_fails_iff_too_big 28 exContainer ⟨8, 0, 4⟩ [67, 67, 67, 67, 67]).2 (by decide)

/-- C4: for a container of bytes whose index entries all lie within bounds,
re-injecting blobs extracted from the container itself (each slot's
`extract_slice` at its recorded offset and capacity, the capacity being the
decoded `used_size`) leaves the container byte-identical, for any sequence of
such injections — in particular for "extract every asset, inject every
extracted blob back". -/
theorem extract_inject_roundtrip (data : List Nat) (didx_offset didx_size dps : Nat)
    (injs : List (SlotInfo × List Nat))
    (hbytes : ∀ b ∈ data, b < 256)
    (hfrom : ∀ p ∈ injs,
      (∃ fid, (fid, p.1) ∈ bnk_index_list data didx_offset didx_size) ∧
      p.2 = extract_slice data dps p.1.file_offset p.1.max_size)
    (hbounds : ∀ p ∈ injs, dps + p.1.file_offset + p.1.max_size ≤ data.length ∧
      p.1.didx_pos + 12 ≤ data.length) :
    patchFold dps data injs = data := by
  apply patchFold_fixed
  intro p hp
  obtain ⟨⟨fid, hmem⟩, hblob⟩ := hfrom p hp
  obtain ⟨hs, hr⟩ := hbounds p hp
  rw [hblob]
  exact injectStep_roundtrip dps data p.1 hbytes hs hr
    (bnk_index_list_mem data didx_offset didx_size fid p.1 hmem).symm

/-- Witness for `extract_inject_roundtrip` at Scenario A: extracting the
single asset of `exContainer` and injecting the blob back yields the original
container. -/
theorem extract_inject_roundtrip_witness :
    patchFold 28 exContainer [(⟨8, 0, 4⟩, extract_slice exContainer 28 0 4)] =
      exContainer := by
  apply extract_inject_roundtrip exContainer 8 12 28
  · decide
  · intro p hp
    rw [List.mem_singleton] at hp
    subst hp
    exact ⟨⟨100, by decide⟩, rfl⟩
  · decide

/-- C8 counterexample: the slot of `exFarOffset` starts at offset 1028, past
the 32-byte buffer, and `2 ≤ 4` passes the size check; each injection appends
`[66, 66]` plus two zero bytes at the end, so injecting twice (40 bytes) is
not injecting once (36 bytes) — the claim, quantified over every indexed slot
with no bounds proviso, is false. -/
theorem inject_idempotent_counterexample :
    bnk_index_list exFarOffset 8 12 = [(100, ⟨8, 1000, 4⟩)] ∧
    injectStep 28 (injectStep 28 exFarOffset ⟨8, 1000, 4⟩ [66, 66]) ⟨8, 1000, 4⟩ [66, 66] ≠
      injectStep 28 exFarOffset ⟨8, 1000, 4⟩ [66, 66] := by
  decide

/-- Witness for `injectStep_idem` at Scenario A: injecting `[66, 66]` twice
into the in-bounds slot of `exContainer` equals injecting it once. -/
theorem injectStep_idem_witness :
    injectStep 28 (injectStep 28 exContainer ⟨8, 0, 4⟩ [66, 66]) ⟨8, 0, 4⟩ [66, 66] =
      injectStep 28 exContainer ⟨8, 0, 4⟩ [66, 66] :=
  injectStep_idem 28 exContainer ⟨8, 0, 4⟩ [66, 66] (by decide) (by decide)

/-- C5 (amended): for a DIDX payload lying within the container (the regime
where every 12-byte record decode succeeds — outside it, `struct.unpack`
raises an uncaught `struct.error` that aborts the extraction loop),
extraction never fails and never mutates the container: the loop does not
abort (`extract_bank?` is `some`), all `didx_size / 12` records are
processed, and each record — its *slot* in bounds or not — yields the blob
`container[payload_offset : payload_offset + capacity]` under Python's
clamping slice semantics, whose length is
`min capacity (length - payload_offset)`.  A record whose slot overruns the
container therefore produces a silently truncated (possibly empty) blob
rather than an `OutOfBounds` failure (`extract_oob_counterexample`). -/
theorem extract_truncates (data : List Nat) (off size dps : Nat)
    (h : off + size ≤ data.length) :
    extract_bank? data off size dps = some (extract_bank data off size dps) ∧
    (extract_bank data off size dps).length = size / 12 ∧
    ∀ i, i < size / 12 →
      (extract_bank data off size dps).getD i (0, []) =
        (readU32 data (off + 12 * i),
          extract_slice data dps (readU32 data (off + 12 * i + 4))
            (readU32 data (off + 12 * i + 8))) ∧
      ((extract_bank data off size dps).getD i (0, [])).2.length =
        min (readU32 data (off + 12 * i + 8))
          (data.length - (dps + readU32 data (off + 12 * i + 4))) := by
  have hsome : extract_bank? data off size dps = some (extract_bank data off size dps) := by
    unfold extract_bank?
    rw [if_pos]
    rw [List.all_eq_true]
    intro i hi
    rw [List.mem_range] at hi
    have hrec : off + 12 * i + 12 ≤ data.length := by omega
    unfold readRecord?
    rw [if_pos hrec]
    rfl
  have hget : ∀ i, i < size / 12 →
      (extract_bank data off size dps).getD i (0, []) =
        (readU32 data (off + 12 * i),
          extract_slice data dps (readU32 data (off + 12 * i + 4))
            (readU32 data (off + 12 * i + 8))) := by
    intro i hi
    simp only [extract_bank, List.getD_eq_getElem?_getD, List.getElem?_map,
      List.getElem?_range hi]
    rfl
  refine ⟨hsome, by simp [extract_bank], fun i hi => ⟨hget i hi, ?_⟩⟩
  rw [hget i hi]
  simp only [extract_slice, List.length_take, List.length_drop]

/-- C5 counterexample: in `exTwoRecords` the first record's slot `[40, 46)`
overruns the 44-byte container, yet extraction emits a truncated 4-byte blob
for it (no failure of any kind exists in the code) and continues to the
second record. -/
theorem extract_oob_counterexample :
    parse_bnk exTwoRecords = some (8, 24, 40) ∧
    exTwoRecords.length = 44 ∧
    extract_bank exTwoRecords 8 24 40 = [(100, [65, 65, 65, 65]), (200, [65, 65])] ∧
    (40 : Nat) + 6 > 44 ∧ ([65, 65, 65, 65] : List Nat).length < 6 := by
  decide

/-- Witness for `extract_truncates` at `exTwoRecords` (whose 24-byte DIDX
payload is in bounds), record 0: the loop does not abort, both records are
processed, and the blob of the record whose slot overruns the container has
length `min 6 (44 - 40) = 4`. -/
theorem extract_truncates_witness :
    extract_bank? exTwoRecords 8 24 40 = some (extract_bank exTwoRecords 8 24 40) ∧
    (extract_bank exTwoRecords 8 24 40).length = 2 ∧
    ((extract_bank exTwoRecords 8 24 40).getD 0 (0, [])).2.length = 4 := by
  have h := extract_truncates exTwoRecords 8 24 40 (by decide)
  exact ⟨h.1, h.2.1, by have h2 := (h.2.2 0 (by decide)).2; simpa using h2⟩

theorem scanChunks_fuel_stable (fuel : Nat) :
    ∀ (fuel' : Nat) (data : List Nat) (offset : Nat) (didx : Option (Nat × Nat))
      (dstart : Option Nat),
      data.length - offset < fuel → data.length - offset < fuel' →
      scanChunks fuel data offset didx dstart = scanChunks fuel' data offset didx dstart := by
  induction fuel with
  | zero => intro fuel' data offset didx dstart h _; omega
  | succ n ih =>
    intro fuel' data offset didx dstart h h'
    cases fuel' with
    | zero => omega
    | succ m =>
      simp only [scanChunks]
      by_cases hc : offset < data.length - 8
      · rw [if_pos hc, if_pos hc]
        have hn : data.length - (offset + 8 + readU32 data (offset + 4)) < n := by omega
        have hm : data.length - (offset + 8 + readU32 data (offset + 4)) < m := by omega
        by_cases h1 : readTag data offset = didxTag
        · rw [if_pos h1, if_pos h1]
          exact ih m data _ _ _ hn hm
        · rw [if_neg h1, if_neg h1]
          by_cases h2 : readTag data offset = dataTag
          · rw [if_pos h2, if_pos h2]
            exact ih m data _ _ _ hn hm
          · rw [if_neg h2, if_neg h2]
            exact ih m data _ _ _ hn hm
      · rw [if_neg hc, if_neg hc]

/-- The fuel `data.length + 1` used by `parse_bnk` is canonical: any fuel
exceeding `data.length` yields the same scan (each iteration advances the
cursor by at least 8). -/
theorem scanChunks_fuel_adequate (data : List Nat) (fuel : Nat) (h : data.length < fuel) :
    scanChunks fuel data 0 none none = scanChunks (data.length + 1) data 0 none none :=
  scanChunks_fuel_stable fuel (data.length + 1) data 0 none none (by omega) (by omega)

theorem scanChunks_eq_folds (fuel : Nat) :
    ∀ (data : List Nat) (offset : Nat) (didx : Option (Nat × Nat)) (dstart : Option Nat),
      scanChunks fuel data offset didx dstart =
        (lastDidx data didx (chunk_offsets fuel data offset),
          lastData data dstart (chunk_offsets fuel data offset)) := by
  induction fuel with
  | zero => intro data offset didx dstart; rfl
  | succ n ih =>
    intro data offset didx dstart
    by_cases h : offset < data.length - 8
    · simp only [scanChunks, chunk_offsets, if_pos h, lastDidx, lastData, List.foldl_cons]
      by_cases h1 : readTag data offset = didxTag
      · rw [if_pos h1, if_pos h1, if_neg (by rw [h1]; decide)]
        exact ih data (offset + 8 + readU32 data (offset + 4)) _ _
      · rw [if_neg h1, if_neg h1]
        by_cases h2 : readTag data offset = dataTag
        · rw [if_pos h2, if_pos h2]
          exact ih data (offset + 8 + readU32 data (offset + 4)) _ _
        · rw [if_neg h2, if_neg h2]
          exact ih data (offset + 8 + readU32 data (offset + 4)) _ _
    · simp only [scanChunks, chunk_offsets, if_neg h]
      rfl

/-- C6 (amended): the chunk scan starts at offset 0 and reads a header at
every offset in `chunk_offsets` — the offsets visited while STRICTLY MORE
than 8 bytes remain at the cursor (`offset < len - 8`), each advancing the
cursor by `8 + size` regardless of tag; for a DIDX tag it records
`(offset + 8, size)` and for a DATA tag `offset + 8` (last occurrence wins);
parsing fails (`none`, "InvalidContainer") exactly when no DIDX header or no
DATA header was visited.  The claim's "while at least 8 bytes remain" is off
by one: a header occupying exactly the final 8 bytes is never read
(`parse_trailing_header_counterexample`). -/
theorem parse_bnk_characterization (data : List Nat) :
    parse_bnk data =
      match lastDidx data none (chunk_offsets (data.length + 1) data 0),
          lastData data none (chunk_offsets (data.length + 1) data 0) with
      | some d, some p => some (d.1, d.2, p)
      | _, _ => none := by
  unfold parse_bnk
  rw [scanChunks_eq_folds]
  rcases lastDidx data none (chunk_offsets (data.length + 1) data 0) with _ | d <;>
    rcases lastData data none (chunk_offsets (data.length + 1) data 0) with _ | p <;>
    rfl

/-- C6 counterexample: `exTrailingHeader` is 16 bytes — a size-0 DIDX header
followed by a size-0 DATA header in the final 8 bytes.  Under the claim's
loop condition ("at least 8 bytes remain", `scanChunksClaim`) the scan reads
both headers and parsing succeeds, but the code's loop (`offset < len - 8`)
stops before the DATA header and `parse_bnk` fails with InvalidContainer. -/
theorem parse_trailing_header_counterexample :
    parse_bnk exTrailingHeader = none ∧
    parse_bnkClaim exTrailingHeader = some (8, 0, 16) := by
  decide

/-- C7: `shrink_to_fit` over the fixed attempt list
`(44100,1), (32000,2), (32000,1), (24000,1), (22050,1)` returns the blob of
the first attempt that fits (an attempt whose resample or transcode step
fails, or whose blob exceeds the capacity, counts as not fitting and the
search continues), and returns `none` (`CannotShrink`, asset skipped) exactly
when every attempt is exhausted without a fit. -/
theorem shrink_first_fit {α : Type} (resample : Nat → Nat → Option α)
    (transcode : α → Option (List Nat)) (cap : Nat) :
    (∀ (pre post : List (Nat × Nat)) (p : Nat × Nat) (blob : List Nat),
      shrink_attempts = pre ++ p :: post →
      (∀ q ∈ pre, attempt_fit resample transcode cap q = none) →
      attempt_fit resample transcode cap p = some blob →
      shrink_to_fit resample transcode cap shrink_attempts = some blob) ∧
    ((∀ q ∈ shrink_attempts, attempt_fit resample transcode cap q = none) →
      shrink_to_fit resample transcode cap shrink_attempts = none) := by
  have hskip : ∀ (p : Nat × Nat) (rest : List (Nat × Nat)),
      attempt_fit resample transcode cap p = none →
      shrink_to_fit resample transcode cap (p :: rest) =
        shrink_to_fit resample transcode cap rest := by
    rintro ⟨sr, ch⟩ rest h
    unfold attempt_fit at h
    simp only at h
    show (match resample sr ch with
      | none => shrink_to_fit resample transcode cap rest
      | some w =>
        match transcode w with
        | none => shrink_to_fit resample transcode cap rest
        | some blob => if blob.length ≤ cap then some blob
            else shrink_to_fit resample transcode cap rest) =
      shrink_to_fit resample transcode cap rest
    cases hr : resample sr ch with
    | none => rfl
    | some w =>
      simp only [hr] at h
      show (match transcode w with
        | none => shrink_to_fit resample transcode cap rest
        | some blob => if blob.length ≤ cap then some blob
            else shrink_to_fit resample transcode cap rest) =
        shrink_to_fit resample transcode cap rest
      cases ht : transcode w with
      | none => rfl
      | some blob =>
        simp only [ht] at h
        have hfit : ¬blob.length ≤ cap := by
          by_contra hc
          rw [if_pos hc] at h
          exact Option.noConfusion h
        show (if blob.length ≤ cap then some blob
            else shrink_to_fit resample transcode cap rest) =
          shrink_to_fit resample transcode cap rest
        rw [if_neg hfit]
  have hhit : ∀ (p : Nat × Nat) (rest : List (Nat × Nat)) (blob : List Nat),
      attempt_fit resample transcode cap p = some blob →
      shrink_to_fit resample transcode cap (p :: rest) = some blob := by
    rintro ⟨sr, ch⟩ rest blob h
    unfold attempt_fit at h
    simp only at h
    show (match resample sr ch with
      | none => shrink_to_fit resample transcode cap rest
      | some w =>
        match transcode w with
        | none => shrink_to_fit resample transcode cap rest
        | some b => if b.length ≤ cap then some b
            else shrink_to_fit resample transcode cap rest) =
      some blob
    cases hr : resample sr ch with
    | none => simp only [hr] at h; exact Option.noConfusion h
    | some w =>
      simp only [hr] at h
      show (match transcode w with
        | none => shrink_to_fit resample transcode cap rest
        | some b => if b.length ≤ cap then some b
            else shrink_to_fit resample transcode cap rest) =
        some blob
      cases ht : transcode w with
      | none => simp only [ht] at h; exact Option.noConfusion h
      | some b =>
        simp only [ht] at h
        show (if b.length ≤ cap then some b
            else shrink_to_fit resample transcode cap rest) = some blob
        by_cases hc : b.length ≤ cap
        · rw [if_pos hc] at h ⊢; exact h
        · rw [if_neg hc] at h; exact Option.noConfusion h
  have hskipAll : ∀ (pre rest : List (Nat × Nat)),
      (∀ q ∈ pre, attempt_fit resample transcode cap q = none) →
      shrink_to_fit resample transcode cap (pre ++ rest) =
        shrink_to_fit resample transcode cap rest := by
    intro pre
    induction pre with
    | nil => intro rest _; rfl
    | cons q tl ih =>
      intro rest h
      rw [List.cons_append, hskip q (tl ++ rest) (h q (by simp))]
      exact ih rest (fun r hr => h r (by simp [hr]))
  constructor
  · intro pre post p blob hsplit hpre hfit
    rw [hsplit, hskipAll pre (p :: post) hpre]
    exact hhit p post blob hfit
  · intro hall
    have : shrink_to_fit resample transcode cap (shrink_attempts ++ []) =
        shrink_to_fit resample transcode cap [] := hskipAll shrink_attempts [] hall
    simpa using this

/-- Witness for `shrink_first_fit`: with the concrete collaborators, the
first two attempts fail (blob too big, then transcode failure) and the third
fits, so `shrink_to_fit` returns the third attempt's 3-byte blob. -/
theorem shrink_first_fit_witness :
    shrink_to_fit fakeResample fakeTranscode 3 shrink_attempts = some [7, 7, 7] :=
  (shrink_first_fit fakeResample fakeTranscode 3).1 [(44100, 1), (32000, 2)]
    [(24000, 1), (22050, 1)] (32000, 1) [7, 7, 7] (by decide) (by decide) (by decide)

theorem dictGet_insert {κ ν : Type} [DecidableEq κ] (m : List (κ × ν)) (a k : κ) (b : ν) :
    dictGet (dictInsert m a b) k = if a = k then some b else dictGet m k := by
  unfold dictGet dictInsert
  by_cases hmem : m.any (fun p => p.1 == a)
  · rw [if_pos hmem, List.find?_map]
    have hpred : ((fun p : κ × ν => p.1 == k) ∘ (fun p => if p.1 == a then (a, b) else p)) =
        fun p : κ × ν => p.1 == k := by
      funext p
      by_cases hp : p.1 = a
      · simp [hp]
      · simp [hp]
    rw [hpred]
    by_cases hak : a = k
    · subst hak
      have hsome : (m.find? (fun p : κ × ν => p.1 == a)).isSome := by
        rw [List.find?_isSome]
        exact List.any_eq_true.mp hmem
      obtain ⟨q, hq⟩ := Option.isSome_iff_exists.mp hsome
      have hqa : q.1 = a := by simpa using List.find?_some hq
      rw [hq, if_pos rfl]
      simp [hqa]
    · rw [if_neg hak]
      cases hf : m.find? (fun p => p.1 == k) with
      | none => rfl
      | some q =>
        have hqk : q.1 = k := by simpa using List.find?_some hf
        have : ¬q.1 = a := by rw [hqk]; exact fun hh => hak hh.symm
        simp [this]
  · rw [if_neg hmem, List.find?_append]
    by_cases hak : a = k
    · subst hak
      have hnone : m.find? (fun p => p.1 == a) = none := by
        rw [List.find?_eq_none]
        intro p hp hpa
        exact hmem (List.any_eq_true.mpr ⟨p, hp, hpa⟩)
      rw [hnone, Option.none_or, if_pos rfl]
      simp [List.find?]
    · cases hf : m.find? (fun p => p.1 == k) with
      | none =>
        rw [Option.none_or, if_neg hak]
        have : ((a, b).1 == k) = false := by simpa using hak
        simp [List.find?, this]
      | some q =>
        rw [Option.or_some, if_neg hak]

theorem dictGet_foldl {κ ν : Type} [DecidableEq κ] (l : List (κ × ν)) :
    ∀ (m : List (κ × ν)) (k : κ),
      dictGet (l.foldl (fun m p => dictInsert m p.1 p.2) m) k =
        match l.reverse.find? (fun p => p.1 == k) with
        | some p => some p.2
        | none => dictGet m k := by
  induction l with
  | nil => intro m k; rfl
  | cons q rest ih =>
    intro m k
    simp only [List.foldl_cons, List.reverse_cons]
    rw [ih, List.find?_append]
    cases hf : rest.reverse.find? (fun p => p.1 == k) with
    | some p => rw [Option.or_some]
    | none =>
      rw [Option.none_or, dictGet_insert]
      by_cases hq : q.1 = k
      · have : ((q.1 == k) : Bool) = true := by simpa using hq
        simp [List.find?, this, hq]
      · have : ((q.1 == k) : Bool) = false := by simpa using hq
        simp [List.find?, this, hq]

/-- C9: given the DIDX payload within the container, the index is built from
exactly `didx_size / 12` records (a trailing partial record is silently
dropped by the integer division), record `i` is decoded at
`didx_offset + i*12` as the three little-endian u32 fields
`(asset_id, relative_offset, used_size)` (with `record_position` the record's
own offset and `capacity` the decoded `used_size`), and the dict lookup for a
repeated `asset_id` yields the last such record (last-wins).  Python keys the
dict by `str(fid)`; decimal rendering being injective, keys here are the ids
themselves. -/
theorem didx_index_spec (data : List Nat) (off size fid : Nat)
    (h : off + size ≤ data.length) :
    (bnk_index_list data off size).length = size / 12 ∧
    (∀ i, i < size / 12 →
      (bnk_index_list data off size).getD i (0, ⟨0, 0, 0⟩) =
        (readU32 data (off + 12 * i),
          ⟨off + 12 * i, readU32 data (off + 12 * i + 4),
            readU32 data (off + 12 * i + 8)⟩)) ∧
    dictGet (bnk_index data off size) fid =
      ((bnk_index_list data off size).reverse.find? (fun p => p.1 == fid)).map
        (fun p => p.2) := by
  refine ⟨bnk_index_list_length data off size, fun i hi => ?_, ?_⟩
  · simp only [bnk_index_list, List.getD_eq_getElem?_getD, List.getElem?_map,
      List.getElem?_range hi]
    rfl
  · unfold bnk_index
    rw [dictGet_foldl]
    cases hf : (bnk_index_list data off size).reverse.find? (fun p => p.1 == fid) with
    | none => rfl
    | some p => rfl

/-- Witness for `didx_index_spec` on `exDupDidx` (a bare 25-byte DIDX payload,
Scenario D plus a duplicated id): two records are decoded, the trailing byte
is ignored, and the lookup of the duplicated id 7 yields the second record. -/
theorem didx_index_spec_witness :
    (bnk_index_list exDupDidx 0 25).length = 2 ∧
    (bnk_index_list exDupDidx 0 25).getD 1 (0, ⟨0, 0, 0⟩) = (7, ⟨12, 4, 2⟩) ∧
    dictGet (bnk_index exDupDidx 0 25) 7 =
      ((bnk_index_list exDupDidx 0 25).reverse.find? (fun p => p.1 == 7)).map
        (fun p => p.2) ∧
    dictGet (bnk_index exDupDidx 0 25) 7 = some ⟨12, 4, 2⟩ := by
  have h := didx_index_spec exDupDidx 0 25 7 (by decide)
  refine ⟨h.1, ?_, h.2.2, by decide⟩
  have h2 := h.2.1 1 (by decide)
  simpa using h2

theorem available_wems_foldl (files : List (List Char)) :
    ∀ (m : List (List Char × List Char)) (k : List Char),
      dictGet (files.foldl
        (fun m f => if endsWithWem f then dictInsert m (splitext_stem f) f else m) m) k =
        match files.reverse.find? (fun f => endsWithWem f && (splitext_stem f == k)) with
        | some f => some f
        | none => dictGet m k := by
  induction files with
  | nil => intro m k; rfl
  | cons g rest ih =>
    intro m k
    simp only [List.foldl_cons, List.reverse_cons]
    rw [ih, List.find?_append]
    cases hf : rest.reverse.find? (fun f => endsWithWem f && (splitext_stem f == k)) with
    | some p => rw [Option.or_some]
    | none =>
      rw [Option.none_or]
      by_cases hw : endsWithWem g
      · rw [if_pos hw, dictGet_insert]
        by_cases hs : splitext_stem g = k
        · have hb : (endsWithWem g && (splitext_stem g == k)) = true := by
            simp [hw, hs]
          simp [List.find?, hb, hs, hw]
        · have hb : (endsWithWem g && (splitext_stem g == k)) = false := by
            simp [hs]
          simp [List.find?, hb, hs]
      · rw [if_neg hw]
        have hb : (endsWithWem g && (splitext_stem g == k)) = false := by
          simp [Bool.eq_false_iff.mpr hw]
        simp [List.find?, hb]

/-- C10: a replacement file is selected for the record `fid` exactly when it
passes the case-insensitive `.wem` extension filter and its stem (via
`os.path.splitext`) equals the canonical decimal rendering of the u32
`asset_id` (no leading zeros, no sign — Python's `str(fid)`, here
`toString fid`); the file used is the last such directory entry.  In
particular `007.wem` never matches the asset with id 7, while `7.wem` does. -/
theorem replacement_matching (files : List (List Char)) (fid : Nat) :
    dictGet (available_wems files) ((toString fid).toList) =
      files.reverse.find? (fun f => wem_matches f fid) ∧
    ((dictGet (available_wems files) ((toString fid).toList)).isSome ↔
      ∃ f ∈ files, wem_matches f fid = true) ∧
    wem_matches ("007.wem".toList) 7 = false ∧
    wem_matches ("7.wem".toList) 7 = true := by
  have h1 : dictGet (available_wems files) ((toString fid).toList) =
      files.reverse.find? (fun f => wem_matches f fid) := by
    unfold available_wems
    rw [available_wems_foldl]
    simp only [wem_matches]
    cases hf : files.reverse.find?
        (fun f => endsWithWem f && (splitext_stem f == (toString fid).toList)) with
    | none => rfl
    | some p => rfl
  refine ⟨h1, ?_, by decide, by decide⟩
  rw [h1, List.find?_isSome]
  simp [List.mem_reverse]

end EchoBank
